import Mathlib

/-!
Shallow embedding of the `render_math` repository (files
`src/vec/vec3.rs`, `src/mat/mat4f32.rs`, `src/rotor/rot3df32.rs`)
over the real numbers, together with proofs of the specification's
claims about it.  Each Rust `f32` field is modelled as a real number;
each Rust method is translated, formula by formula, into a Lean
definition of the same name.
-/

namespace RenderMath

/-- Structure `Vec3f32` from `src/vec/vec3.rs`: three components `x`, `y`, `z`. -/
@[ext]
structure Vec3f32 where
  x : ℝ
  y : ℝ
  z : ℝ

namespace Vec3f32

/-- Method `Vec3f32::new`. -/
def new (x y z : ℝ) : Vec3f32 := ⟨x, y, z⟩

/-- Method `Vec3f32::magnitude`: `(x*x + y*y + z*z).sqrt()`. -/
noncomputable def magnitude (v : Vec3f32) : ℝ :=
  Real.sqrt (v.x * v.x + v.y * v.y + v.z * v.z)

/-- Helper: the squared Euclidean norm `x*x + y*y + z*z` (the argument of the
square root in `magnitude`). -/
def magnitudeSq (v : Vec3f32) : ℝ :=
  v.x * v.x + v.y * v.y + v.z * v.z

/-- Method `Vec3f32::normalize`: divide every component by the magnitude. -/
noncomputable def normalize (v : Vec3f32) : Vec3f32 :=
  ⟨v.x / v.magnitude, v.y / v.magnitude, v.z / v.magnitude⟩

/-- Method `Vec3f32::dot`. -/
def dot (u v : Vec3f32) : ℝ :=
  u.x * v.x + u.y * v.y + u.z * v.z

/-- Operator `impl Add for Vec3f32`: componentwise addition. -/
def add (u v : Vec3f32) : Vec3f32 :=
  ⟨u.x + v.x, u.y + v.y, u.z + v.z⟩

/-- Operator `impl Div<f32> for Vec3f32`: divide every component by the scalar. -/
noncomputable def div (v : Vec3f32) (c : ℝ) : Vec3f32 :=
  ⟨v.x / c, v.y / c, v.z / c⟩

/-- Stage 1-3 of `Vec3f32::perpendicular`: the vector it builds before its final
`normalize` call: `m` is the index of the first non-zero component of
`self` (x, then y, then z), `n = (m+1) % 3`; the result's `n`-th
component is `self`'s `m`-th component, its `m`-th component is the
negation of `self`'s `n`-th component, and the remaining component is
zero. -/
noncomputable def perpendicularPre (v : Vec3f32) : Vec3f32 :=
  if v.x ≠ 0 then
    -- m = 0, n = 1: result.y = v.x, result.x = -v.y
    ⟨-v.y, v.x, 0⟩
  else if v.y ≠ 0 then
    -- m = 1, n = 2: result.z = v.y, result.y = -v.z
    ⟨0, -v.z, v.y⟩
  else
    -- m = 2, n = 0: result.x = v.z, result.z = -v.x = 0 (since v.x = 0 here)
    ⟨v.z, 0, -v.x⟩

/-- Method `Vec3f32::perpendicular`: the vector above, normalized. -/
noncomputable def perpendicular (v : Vec3f32) : Vec3f32 :=
  v.perpendicularPre.normalize

end Vec3f32

/-- Structure `Mat4f32` from `src/mat/mat4f32.rs`: sixteen values in row-major
order. -/
@[ext]
structure Mat4f32 where
  values : Fin 16 → ℝ

namespace Mat4f32

/-- Operator `impl Mul for &Mat4f32`: the source names entry `r*4+c` of the left
factor `a⟨row⟩⟨c+1⟩` (e.g. `ax2 = values[1]`) and multiplies row by
column; we transcribe the sixteen sums with the same flat indexing. -/
def mul (a b : Mat4f32) : Mat4f32 :=
  ⟨![a.values 0 * b.values 0 + a.values 1 * b.values 4 + a.values 2 * b.values 8 + a.values 3 * b.values 12,
     a.values 0 * b.values 1 + a.values 1 * b.values 5 + a.values 2 * b.values 9 + a.values 3 * b.values 13,
     a.values 0 * b.values 2 + a.values 1 * b.values 6 + a.values 2 * b.values 10 + a.values 3 * b.values 14,
     a.values 0 * b.values 3 + a.values 1 * b.values 7 + a.values 2 * b.values 11 + a.values 3 * b.values 15,
     a.values 4 * b.values 0 + a.values 5 * b.values 4 + a.values 6 * b.values 8 + a.values 7 * b.values 12,
     a.values 4 * b.values 1 + a.values 5 * b.values 5 + a.values 6 * b.values 9 + a.values 7 * b.values 13,
     a.values 4 * b.values 2 + a.values 5 * b.values 6 + a.values 6 * b.values 10 + a.values 7 * b.values 14,
     a.values 4 * b.values 3 + a.values 5 * b.values 7 + a.values 6 * b.values 11 + a.values 7 * b.values 15,
     a.values 8 * b.values 0 + a.values 9 * b.values 4 + a.values 10 * b.values 8 + a.values 11 * b.values 12,
     a.values 8 * b.values 1 + a.values 9 * b.values 5 + a.values 10 * b.values 9 + a.values 11 * b.values 13,
     a.values 8 * b.values 2 + a.values 9 * b.values 6 + a.values 10 * b.values 10 + a.values 11 * b.values 14,
     a.values 8 * b.values 3 + a.values 9 * b.values 7 + a.values 10 * b.values 11 + a.values 11 * b.values 15,
     a.values 12 * b.values 0 + a.values 13 * b.values 4 + a.values 14 * b.values 8 + a.values 15 * b.values 12,
     a.values 12 * b.values 1 + a.values 13 * b.values 5 + a.values 14 * b.values 9 + a.values 15 * b.values 13,
     a.values 12 * b.values 2 + a.values 13 * b.values 6 + a.values 14 * b.values 10 + a.values 15 * b.values 14,
     a.values 12 * b.values 3 + a.values 13 * b.values 7 + a.values 14 * b.values 11 + a.values 15 * b.values 15]⟩

end Mat4f32

/-- Structure `Rot3Df32` from `src/rotor/rot3df32.rs`: scalar `s` and bivector
components `xy`, `yz`, `zx`. -/
@[ext]
structure Rot3Df32 where
  s : ℝ
  xy : ℝ
  yz : ℝ
  zx : ℝ

namespace Rot3Df32

/-- Method `Rot3Df32::identity`. -/
def identity : Rot3Df32 := ⟨1, 0, 0, 0⟩

/-- Method `Rot3Df32::new`: the scalar + bivector grades of the geometric
product of `b` and `a`. -/
def new (a b : Vec3f32) : Rot3Df32 :=
  ⟨b.x * a.x + b.y * a.y + b.z * a.z,
   b.x * a.y - b.y * a.x,
   b.y * a.z - b.z * a.y,
   b.z * a.x - b.x * a.z⟩

/-- Method `Rot3Df32::new_exact`: replace `b` by `a.perpendicular()` when
`a.dot(b)` lies in the half-open interval `[-1.00001, -0.99999)`
(Rust's `(-1.00001..-0.99999).contains`), otherwise by the normalized
bisector `(a + b) / (a + b).magnitude()`; then call `new`. -/
noncomputable def new_exact (a b : Vec3f32) : Rot3Df32 :=
  if -1.00001 ≤ a.dot b ∧ a.dot b < -0.99999 then
    Rot3Df32.new a a.perpendicular
  else
    Rot3Df32.new a ((a.add b).div (a.add b).magnitude)

/-- Methods `Rot3Df32::invert` / `inverted`: negate the three bivector
components, leave `s` unchanged. -/
def inverted (r : Rot3Df32) : Rot3Df32 :=
  ⟨r.s, -r.xy, -r.yz, -r.zx⟩

/-- Methods `Rot3Df32::rotate_vec` / `rotated_vec`: the sandwich product,
written exactly as the source's two stages (`tx`, `ty`, `tz`, `txyz`
then the final components). -/
def rotated_vec (r : Rot3Df32) (v : Vec3f32) : Vec3f32 :=
  let tx := r.s * v.x + r.xy * v.y - r.zx * v.z
  let ty := r.s * v.y - r.xy * v.x + r.yz * v.z
  let tz := r.s * v.z - r.yz * v.y + r.zx * v.x
  let txyz := r.xy * v.z + r.yz * v.x + r.zx * v.y
  ⟨tx * r.s + ty * r.xy - tz * r.zx + txyz * r.yz,
   ty * r.s - tx * r.xy + tz * r.yz + txyz * r.zx,
   tz * r.s + tx * r.zx - ty * r.yz + txyz * r.xy⟩

/-- Methods `Rot3Df32::append` / `appended`: the rotor product formula of the
source, `self = p`, `r = q`. -/
def appended (p q : Rot3Df32) : Rot3Df32 :=
  ⟨p.s * q.s - p.xy * q.xy - p.yz * q.yz - p.zx * q.zx,
   p.s * q.xy + p.xy * q.s - p.yz * q.zx + p.zx * q.yz,
   p.s * q.yz + p.yz * q.s + p.xy * q.zx - p.zx * q.xy,
   p.s * q.zx + p.zx * q.s - p.xy * q.yz + p.yz * q.xy⟩

/-- Helper: the squared rotor norm `s² + xy² + yz² + zx²` (the `mag_sqrd` of
`Rot3Df32::normalize`). -/
def normSq (r : Rot3Df32) : ℝ :=
  r.s * r.s + r.xy * r.xy + r.yz * r.yz + r.zx * r.zx

/-- Method `Rot3Df32::normalize`: divide all four components by
`sqrt(s² + xy² + yz² + zx²)`. -/
noncomputable def normalize (r : Rot3Df32) : Rot3Df32 :=
  ⟨r.s / Real.sqrt r.normSq, r.xy / Real.sqrt r.normSq,
   r.yz / Real.sqrt r.normSq, r.zx / Real.sqrt r.normSq⟩

/-- Method `Rot3Df32::rotation_mat`: rotate the three standard basis vectors
and place them as the columns of the upper-left 3×3 block of a
homogeneous 4×4 matrix. -/
noncomputable def rotation_mat (r : Rot3Df32) : Mat4f32 :=
  let new_x := r.rotated_vec ⟨1, 0, 0⟩
  let new_y := r.rotated_vec ⟨0, 1, 0⟩
  let new_z := r.rotated_vec ⟨0, 0, 1⟩
  ⟨![new_x.x, new_y.x, new_z.x, 0,
     new_x.y, new_y.y, new_z.y, 0,
     new_x.z, new_y.z, new_z.z, 0,
     0, 0, 0, 1]⟩

end Rot3Df32

/-- Modelled from the spec: the repository has no matrix–vector
product, but §8's rotor–matrix equivalence speaks of "transforming `v`
by `r.rotation_mat()` (homogeneous transform)".  This is the standard
row-major homogeneous transform of `(v, 1)`: component `i` of the
output is row `i` of the matrix dotted with `(v.x, v.y, v.z, 1)`. -/
def transformHomogeneous (m : Mat4f32) (v : Vec3f32) : Vec3f32 × ℝ :=
  (⟨m.values 0 * v.x + m.values 1 * v.y + m.values 2 * v.z + m.values 3,
    m.values 4 * v.x + m.values 5 * v.y + m.values 6 * v.z + m.values 7,
    m.values 8 * v.x + m.values 9 * v.y + m.values 10 * v.z + m.values 11⟩,
   m.values 12 * v.x + m.values 13 * v.y + m.values 14 * v.z + m.values 15)

end RenderMath

namespace RenderMath

open Rot3Df32

/-! ### Helper lemmas -/

/-- Helper: `magnitude` is the square root of `magnitudeSq`. -/
lemma Vec3f32.magnitude_eq_sqrt (v : Vec3f32) :
    v.magnitude = Real.sqrt v.magnitudeSq := rfl

/-- Helper: a vector of magnitude `1` has squared norm `1`. -/
lemma Vec3f32.magnitudeSq_eq_one (a : Vec3f32) (ha : a.magnitude = 1) :
    a.magnitudeSq = 1 := by
  have h0 : (0:ℝ) ≤ a.x * a.x + a.y * a.y + a.z * a.z :=
    add_nonneg (add_nonneg (mul_self_nonneg _) (mul_self_nonneg _)) (mul_self_nonneg _)
  have := congrArg (fun t : ℝ => t * t) ha
  simpa [Vec3f32.magnitude, Real.mul_self_sqrt h0, Vec3f32.magnitudeSq] using this

/-- Helper: normalizing a vector of positive squared norm yields a unit
vector. -/
lemma Vec3f32.magnitude_normalize (w : Vec3f32) (hw : 0 < w.magnitudeSq) :
    w.normalize.magnitude = 1 := by
  have hm : 0 < Real.sqrt w.magnitudeSq := Real.sqrt_pos.mpr hw
  have hm2 : Real.sqrt w.magnitudeSq * Real.sqrt w.magnitudeSq = w.magnitudeSq :=
    Real.mul_self_sqrt hw.le
  simp only [Vec3f32.normalize, Vec3f32.magnitude, Vec3f32.magnitudeSq] at hm hm2 ⊢
  have key : w.x / Real.sqrt (w.x * w.x + w.y * w.y + w.z * w.z) *
        (w.x / Real.sqrt (w.x * w.x + w.y * w.y + w.z * w.z)) +
      w.y / Real.sqrt (w.x * w.x + w.y * w.y + w.z * w.z) *
        (w.y / Real.sqrt (w.x * w.x + w.y * w.y + w.z * w.z)) +
      w.z / Real.sqrt (w.x * w.x + w.y * w.y + w.z * w.z) *
        (w.z / Real.sqrt (w.x * w.x + w.y * w.y + w.z * w.z)) = 1 := by
    field_simp
    nlinarith [hm2]
  rw [key, Real.sqrt_one]

/-- Helper: a vector orthogonal to `w` is orthogonal to `w.normalize`. -/
lemma Vec3f32.dot_normalize (v w : Vec3f32) (hd : v.dot w = 0) :
    v.dot w.normalize = 0 := by
  simp only [Vec3f32.dot, Vec3f32.normalize] at hd ⊢
  have expand : v.x * (w.x / w.magnitude) + v.y * (w.y / w.magnitude) +
      v.z * (w.z / w.magnitude) =
      (v.x * w.x + v.y * w.y + v.z * w.z) / w.magnitude := by ring
  rw [expand, hd, zero_div]

/-- Helper: a rotor with at least one non-zero component has positive
squared norm. -/
lemma Rot3Df32.normSq_pos (r : Rot3Df32)
    (h : ¬(r.s = 0 ∧ r.xy = 0 ∧ r.yz = 0 ∧ r.zx = 0)) : 0 < normSq r := by
  simp only [normSq]
  rcases not_and_or.mp h with hs | h2
  · nlinarith [mul_self_pos.mpr hs, mul_self_nonneg r.xy, mul_self_nonneg r.yz,
      mul_self_nonneg r.zx]
  · rcases not_and_or.mp h2 with hxy | h3
    · nlinarith [mul_self_pos.mpr hxy, mul_self_nonneg r.s, mul_self_nonneg r.yz,
        mul_self_nonneg r.zx]
    · rcases not_and_or.mp h3 with hyz | hzx
      · nlinarith [mul_self_pos.mpr hyz, mul_self_nonneg r.s, mul_self_nonneg r.xy,
          mul_self_nonneg r.zx]
      · nlinarith [mul_self_pos.mpr hzx, mul_self_nonneg r.s, mul_self_nonneg r.xy,
          mul_self_nonneg r.yz]

/-! ### The claims -/

/-- C1: evaluation of the code at a failing input for the claimed
composition order.  For the unit rotors `p = ⟨3/5, 4/5, 0, 0⟩` and
`q = ⟨3/5, 0, 4/5, 0⟩` and the vector `v = (1,0,0)`, the composed rotor
`p.appended(q)` rotates `v` to the same result as rotating by `q` first
and then by `p` — and NOT, as the claim (and the doc comment of
`append`) states, to the result of rotating by `p` first and then by
`q`. -/
theorem append_composition_order_failing :
    normSq ⟨3/5, 4/5, 0, 0⟩ = 1 ∧ normSq ⟨3/5, 0, 4/5, 0⟩ = 1 ∧
    rotated_vec (appended ⟨3/5, 4/5, 0, 0⟩ ⟨3/5, 0, 4/5, 0⟩) ⟨1, 0, 0⟩ =
      rotated_vec ⟨3/5, 4/5, 0, 0⟩ (rotated_vec ⟨3/5, 0, 4/5, 0⟩ ⟨1, 0, 0⟩) ∧
    rotated_vec (appended ⟨3/5, 4/5, 0, 0⟩ ⟨3/5, 0, 4/5, 0⟩) ⟨1, 0, 0⟩ ≠
      rotated_vec ⟨3/5, 0, 4/5, 0⟩ (rotated_vec ⟨3/5, 4/5, 0, 0⟩ ⟨1, 0, 0⟩) := by
  refine ⟨by norm_num [normSq], by norm_num [normSq], ?_, ?_⟩
  · norm_num [rotated_vec, appended]
  · norm_num [rotated_vec, appended, Vec3f32.ext_iff]

/-- C2: for every unit rotor `r` and every vector `v`, rotating `v` by
`r` and then by `r.inverted()` returns `v`; and `inverted` negates
exactly the three bivector components, leaving `s` unchanged. -/
theorem inverted_round_trip (r : Rot3Df32) (v : Vec3f32) (h : normSq r = 1) :
    rotated_vec (inverted r) (rotated_vec r v) = v ∧
    inverted r = ⟨r.s, -r.xy, -r.yz, -r.zx⟩ := by
  refine ⟨?_, rfl⟩
  have key : rotated_vec (inverted r) (rotated_vec r v) =
      ⟨normSq r * normSq r * v.x, normSq r * normSq r * v.y,
       normSq r * normSq r * v.z⟩ := by
    simp only [rotated_vec, inverted, normSq]
    ext <;> ring
  rw [key, h]
  ext <;> simp

/-- C2 witness: the round trip at the unit rotor `⟨3/5, 4/5, 0, 0⟩` and
the vector `(1, 2, 3)`. -/
theorem inverted_round_trip_witness :
    normSq ⟨3/5, 4/5, 0, 0⟩ = 1 ∧
    (rotated_vec (inverted ⟨3/5, 4/5, 0, 0⟩)
        (rotated_vec ⟨3/5, 4/5, 0, 0⟩ ⟨1, 2, 3⟩) = ⟨1, 2, 3⟩ ∧
     inverted ⟨3/5, 4/5, 0, 0⟩ = ⟨3/5, -(4/5), -0, -0⟩) :=
  ⟨by norm_num [normSq], inverted_round_trip _ _ (by norm_num [normSq])⟩

/-- C3: for a unit rotor `r`, transforming the homogeneous vector
`(v, 1)` by `r.rotation_mat()` yields `(rotated_vec r v, 1)`, and the
matrix holds the rotated standard basis vectors as the columns of its
upper-left 3×3 block with last row and column `(0, 0, 0, 1)`. -/
theorem rotation_mat_equiv (r : Rot3Df32) (v : Vec3f32) (h : normSq r = 1) :
    transformHomogeneous (rotation_mat r) v = (rotated_vec r v, 1) ∧
    rotation_mat r =
      ⟨![(rotated_vec r ⟨1, 0, 0⟩).x, (rotated_vec r ⟨0, 1, 0⟩).x, (rotated_vec r ⟨0, 0, 1⟩).x, 0,
         (rotated_vec r ⟨1, 0, 0⟩).y, (rotated_vec r ⟨0, 1, 0⟩).y, (rotated_vec r ⟨0, 0, 1⟩).y, 0,
         (rotated_vec r ⟨1, 0, 0⟩).z, (rotated_vec r ⟨0, 1, 0⟩).z, (rotated_vec r ⟨0, 0, 1⟩).z, 0,
         0, 0, 0, 1]⟩ := by
  refine ⟨?_, rfl⟩
  show (((⟨(r.rotated_vec ⟨1,0,0⟩).x * v.x + (r.rotated_vec ⟨0,1,0⟩).x * v.y + (r.rotated_vec ⟨0,0,1⟩).x * v.z + 0,
          (r.rotated_vec ⟨1,0,0⟩).y * v.x + (r.rotated_vec ⟨0,1,0⟩).y * v.y + (r.rotated_vec ⟨0,0,1⟩).y * v.z + 0,
          (r.rotated_vec ⟨1,0,0⟩).z * v.x + (r.rotated_vec ⟨0,1,0⟩).z * v.y + (r.rotated_vec ⟨0,0,1⟩).z * v.z + 0⟩ : Vec3f32),
         0 * v.x + 0 * v.y + 0 * v.z + 1) : Vec3f32 × ℝ) = (r.rotated_vec v, 1)
  simp only [rotated_vec, Prod.mk.injEq]
  refine ⟨by ext <;> ring, by ring⟩

/-- C3 witness: the homogeneous transform at the identity rotor
`⟨1, 0, 0, 0⟩` and the vector `(1, 2, 3)`. -/
theorem rotation_mat_equiv_witness :
    normSq ⟨1, 0, 0, 0⟩ = 1 ∧
    (transformHomogeneous (rotation_mat ⟨1, 0, 0, 0⟩) ⟨1, 2, 3⟩ =
        (rotated_vec ⟨1, 0, 0, 0⟩ ⟨1, 2, 3⟩, 1) ∧
     rotation_mat ⟨1, 0, 0, 0⟩ =
      ⟨![(rotated_vec ⟨1, 0, 0, 0⟩ ⟨1, 0, 0⟩).x, (rotated_vec ⟨1, 0, 0, 0⟩ ⟨0, 1, 0⟩).x, (rotated_vec ⟨1, 0, 0, 0⟩ ⟨0, 0, 1⟩).x, 0,
         (rotated_vec ⟨1, 0, 0, 0⟩ ⟨1, 0, 0⟩).y, (rotated_vec ⟨1, 0, 0, 0⟩ ⟨0, 1, 0⟩).y, (rotated_vec ⟨1, 0, 0, 0⟩ ⟨0, 0, 1⟩).y, 0,
         (rotated_vec ⟨1, 0, 0, 0⟩ ⟨1, 0, 0⟩).z, (rotated_vec ⟨1, 0, 0, 0⟩ ⟨0, 1, 0⟩).z, (rotated_vec ⟨1, 0, 0, 0⟩ ⟨0, 0, 1⟩).z, 0,
         0, 0, 0, 1]⟩) :=
  ⟨by norm_num [normSq], rotation_mat_equiv _ _ (by norm_num [normSq])⟩

/-- C4: whenever `a.dot(b)` lies in `[-1.00001, -0.99999)`, `new_exact`
substitutes `a.perpendicular()` for the bisector; and concretely
`new_exact((1,0,0), (-1,0,0))` rotates `(1,0,0)` to `(-1,0,0)`. -/
theorem new_exact_antiparallel (a b : Vec3f32)
    (h : -1.00001 ≤ a.dot b ∧ a.dot b < -0.99999) :
    new_exact a b = Rot3Df32.new a a.perpendicular ∧
    rotated_vec (new_exact ⟨1, 0, 0⟩ ⟨-1, 0, 0⟩) ⟨1, 0, 0⟩ = ⟨-1, 0, 0⟩ := by
  constructor
  · simp only [new_exact]
    rw [if_pos h]
  · have hbranch : new_exact ⟨1, 0, 0⟩ ⟨-1, 0, 0⟩ =
        Rot3Df32.new ⟨1, 0, 0⟩ (Vec3f32.perpendicular ⟨1, 0, 0⟩) := by
      simp only [new_exact]
      rw [if_pos]
      constructor <;> norm_num [Vec3f32.dot]
    have hperp : Vec3f32.perpendicular ⟨1, 0, 0⟩ = ⟨0, 1, 0⟩ := by
      rw [Vec3f32.perpendicular, Vec3f32.perpendicularPre, if_pos one_ne_zero]
      simp only [Vec3f32.normalize, Vec3f32.magnitude]
      norm_num
    rw [hbranch, hperp]
    simp only [rotated_vec, Rot3Df32.new]
    norm_num

/-- C4 witness: the antiparallel pair `(1,0,0)`, `(-1,0,0)` satisfies
the branch condition and exhibits the 180° rotation. -/
theorem new_exact_antiparallel_witness :
    (-1.00001 ≤ Vec3f32.dot ⟨1, 0, 0⟩ ⟨-1, 0, 0⟩ ∧
      Vec3f32.dot ⟨1, 0, 0⟩ ⟨-1, 0, 0⟩ < -0.99999) ∧
    (new_exact ⟨1, 0, 0⟩ ⟨-1, 0, 0⟩ =
        Rot3Df32.new ⟨1, 0, 0⟩ (Vec3f32.perpendicular ⟨1, 0, 0⟩) ∧
     rotated_vec (new_exact ⟨1, 0, 0⟩ ⟨-1, 0, 0⟩) ⟨1, 0, 0⟩ = ⟨-1, 0, 0⟩) :=
  ⟨by constructor <;> norm_num [Vec3f32.dot],
   new_exact_antiparallel ⟨1, 0, 0⟩ ⟨-1, 0, 0⟩
     (by constructor <;> norm_num [Vec3f32.dot])⟩

/-- C5: for every non-zero vector `v`, the pre-normalization result of
`perpendicular` has dot product exactly zero with `v`, and
`perpendicular(v)` is a unit vector orthogonal to `v`. -/
theorem perpendicular_correct (v : Vec3f32) (h : v ≠ (⟨0, 0, 0⟩ : Vec3f32)) :
    v.dot v.perpendicularPre = 0 ∧
    v.perpendicular.magnitude = 1 ∧
    v.dot v.perpendicular = 0 := by
  have hdot : v.dot v.perpendicularPre = 0 := by
    simp only [Vec3f32.dot, Vec3f32.perpendicularPre]
    split_ifs <;> ring
  have hpos : 0 < v.perpendicularPre.magnitudeSq := by
    simp only [Vec3f32.perpendicularPre]
    split_ifs with hx hy
    · simp only [Vec3f32.magnitudeSq]
      nlinarith [mul_self_pos.mpr hx, mul_self_nonneg v.y]
    · simp only [Vec3f32.magnitudeSq]
      nlinarith [mul_self_pos.mpr hy, mul_self_nonneg v.z]
    · have hx0 : v.x = 0 := not_not.mp hx
      have hy0 : v.y = 0 := not_not.mp hy
      have hz : v.z ≠ 0 := by
        intro hz0
        exact h (by ext <;> simp [hx0, hy0, hz0])
      simp only [Vec3f32.magnitudeSq]
      nlinarith [mul_self_pos.mpr hz, mul_self_nonneg v.x]
  exact ⟨hdot, Vec3f32.magnitude_normalize _ hpos, Vec3f32.dot_normalize _ _ hdot⟩

/-- C5 witness: the perpendicular of `(0, 1, 0)`. -/
theorem perpendicular_correct_witness :
    (⟨0, 1, 0⟩ : Vec3f32) ≠ ⟨0, 0, 0⟩ ∧
    (Vec3f32.dot ⟨0, 1, 0⟩ (Vec3f32.perpendicularPre ⟨0, 1, 0⟩) = 0 ∧
     Vec3f32.magnitude (Vec3f32.perpendicular ⟨0, 1, 0⟩) = 1 ∧
     Vec3f32.dot ⟨0, 1, 0⟩ (Vec3f32.perpendicular ⟨0, 1, 0⟩) = 0) :=
  ⟨by intro hh; exact one_ne_zero (congrArg Vec3f32.y hh),
   perpendicular_correct _ (by intro hh; exact one_ne_zero (congrArg Vec3f32.y hh))⟩

/-- C6: for every unit rotor `r` and every vector `v`, `rotated_vec`
preserves the Euclidean magnitude. -/
theorem rotated_vec_preserves_magnitude (r : Rot3Df32) (v : Vec3f32)
    (h : normSq r = 1) :
    (rotated_vec r v).magnitude = v.magnitude := by
  have key : (rotated_vec r v).magnitudeSq = normSq r * normSq r * v.magnitudeSq := by
    simp only [rotated_vec, normSq, Vec3f32.magnitudeSq]
    ring
  rw [Vec3f32.magnitude_eq_sqrt, Vec3f32.magnitude_eq_sqrt, key, h, one_mul, one_mul]

/-- C6 witness: magnitude preservation at the unit rotor
`⟨3/5, 4/5, 0, 0⟩` and the vector `(1, 2, 3)`. -/
theorem rotated_vec_preserves_magnitude_witness :
    normSq ⟨3/5, 4/5, 0, 0⟩ = 1 ∧
    Vec3f32.magnitude (rotated_vec ⟨3/5, 4/5, 0, 0⟩ ⟨1, 2, 3⟩) =
      Vec3f32.magnitude ⟨1, 2, 3⟩ :=
  ⟨by norm_num [normSq],
   rotated_vec_preserves_magnitude _ _ (by norm_num [normSq])⟩

/-- C7: for every rotor that is not the zero element, `normalize`
divides each component by `sqrt(s² + xy² + yz² + zx²)` and the result
satisfies `s² + xy² + yz² + zx² = 1`. -/
theorem normalize_restores_unit (r : Rot3Df32)
    (h : ¬(r.s = 0 ∧ r.xy = 0 ∧ r.yz = 0 ∧ r.zx = 0)) :
    Rot3Df32.normalize r =
      ⟨r.s / Real.sqrt (normSq r), r.xy / Real.sqrt (normSq r),
       r.yz / Real.sqrt (normSq r), r.zx / Real.sqrt (normSq r)⟩ ∧
    normSq (Rot3Df32.normalize r) = 1 := by
  have hpos : 0 < normSq r := Rot3Df32.normSq_pos r h
  refine ⟨rfl, ?_⟩
  have hm : 0 < Real.sqrt (normSq r) := Real.sqrt_pos.mpr hpos
  have hm2 : Real.sqrt (normSq r) * Real.sqrt (normSq r) = normSq r :=
    Real.mul_self_sqrt hpos.le
  simp only [Rot3Df32.normalize, normSq] at hm hm2 ⊢
  field_simp
  exact hm2.symm

/-- C7 witness: normalizing the rotor `⟨3, 0, 0, 0⟩`. -/
theorem normalize_restores_unit_witness :
    ¬((3:ℝ) = 0 ∧ (0:ℝ) = 0 ∧ (0:ℝ) = 0 ∧ (0:ℝ) = 0) ∧
    (Rot3Df32.normalize ⟨3, 0, 0, 0⟩ =
      ⟨3 / Real.sqrt (normSq ⟨3, 0, 0, 0⟩), 0 / Real.sqrt (normSq ⟨3, 0, 0, 0⟩),
       0 / Real.sqrt (normSq ⟨3, 0, 0, 0⟩), 0 / Real.sqrt (normSq ⟨3, 0, 0, 0⟩)⟩ ∧
     normSq (Rot3Df32.normalize ⟨3, 0, 0, 0⟩) = 1) :=
  ⟨by intro hh; exact (by norm_num : (3:ℝ) ≠ 0) hh.1,
   normalize_restores_unit _ (by intro hh; exact (by norm_num : (3:ℝ) ≠ 0) hh.1)⟩

/-- C8: multiplying the 4×4 matrix with row-major values `1..16` by the
matrix with row-major values `17..32` yields exactly the reference
result of the specification. -/
theorem mat_mul_reference :
    Mat4f32.mul ⟨![1, 2, 3, 4, 5, 6, 7, 8, 9, 10, 11, 12, 13, 14, 15, 16]⟩
        ⟨![17, 18, 19, 20, 21, 22, 23, 24, 25, 26, 27, 28, 29, 30, 31, 32]⟩ =
      ⟨![250, 260, 270, 280, 618, 644, 670, 696,
         986, 1028, 1070, 1112, 1354, 1412, 1470, 1528]⟩ := by
  ext i
  fin_cases i
  · show (1:ℝ) * 17 + 2 * 21 + 3 * 25 + 4 * 29 = 250
    norm_num
  · show (1:ℝ) * 18 + 2 * 22 + 3 * 26 + 4 * 30 = 260
    norm_num
  · show (1:ℝ) * 19 + 2 * 23 + 3 * 27 + 4 * 31 = 270
    norm_num
  · show (1:ℝ) * 20 + 2 * 24 + 3 * 28 + 4 * 32 = 280
    norm_num
  · show (5:ℝ) * 17 + 6 * 21 + 7 * 25 + 8 * 29 = 618
    norm_num
  · show (5:ℝ) * 18 + 6 * 22 + 7 * 26 + 8 * 30 = 644
    norm_num
  · show (5:ℝ) * 19 + 6 * 23 + 7 * 27 + 8 * 31 = 670
    norm_num
  · show (5:ℝ) * 20 + 6 * 24 + 7 * 28 + 8 * 32 = 696
    norm_num
  · show (9:ℝ) * 17 + 10 * 21 + 11 * 25 + 12 * 29 = 986
    norm_num
  · show (9:ℝ) * 18 + 10 * 22 + 11 * 26 + 12 * 30 = 1028
    norm_num
  · show (9:ℝ) * 19 + 10 * 23 + 11 * 27 + 12 * 31 = 1070
    norm_num
  · show (9:ℝ) * 20 + 10 * 24 + 11 * 28 + 12 * 32 = 1112
    norm_num
  · show (13:ℝ) * 17 + 14 * 21 + 15 * 25 + 16 * 29 = 1354
    norm_num
  · show (13:ℝ) * 18 + 14 * 22 + 15 * 26 + 16 * 30 = 1412
    norm_num
  · show (13:ℝ) * 19 + 14 * 23 + 15 * 27 + 16 * 31 = 1470
    norm_num
  · show (13:ℝ) * 20 + 14 * 24 + 15 * 28 + 16 * 32 = 1528
    norm_num

/-- C9: `Rot3Df32::new` applied to two vectors of magnitude `1`
produces a rotor whose squared norm equals `|a|²·|b|²`, hence `1`. -/
theorem new_from_unit_vectors_is_unit (a b : Vec3f32)
    (ha : a.magnitude = 1) (hb : b.magnitude = 1) :
    normSq (Rot3Df32.new a b) = a.magnitudeSq * b.magnitudeSq ∧
    normSq (Rot3Df32.new a b) = 1 := by
  have key : normSq (Rot3Df32.new a b) = a.magnitudeSq * b.magnitudeSq := by
    simp only [normSq, Rot3Df32.new, Vec3f32.magnitudeSq]
    ring
  refine ⟨key, ?_⟩
  rw [key, Vec3f32.magnitudeSq_eq_one a ha, Vec3f32.magnitudeSq_eq_one b hb, one_mul]

/-- C9 witness: the rotor built from `(1,0,0)` and `(0,1,0)`. -/
theorem new_from_unit_vectors_is_unit_witness :
    Vec3f32.magnitude ⟨1, 0, 0⟩ = 1 ∧ Vec3f32.magnitude ⟨0, 1, 0⟩ = 1 ∧
    (normSq (Rot3Df32.new ⟨1, 0, 0⟩ ⟨0, 1, 0⟩) =
        Vec3f32.magnitudeSq ⟨1, 0, 0⟩ * Vec3f32.magnitudeSq ⟨0, 1, 0⟩ ∧
     normSq (Rot3Df32.new ⟨1, 0, 0⟩ ⟨0, 1, 0⟩) = 1) :=
  ⟨by norm_num [Vec3f32.magnitude], by norm_num [Vec3f32.magnitude],
   new_from_unit_vectors_is_unit _ _ (by norm_num [Vec3f32.magnitude])
     (by norm_num [Vec3f32.magnitude])⟩

/-- C10: for all rotors `p` and `q`, the squared norm of
`p.appended(q)` equals the product of the squared norms of `p` and `q`;
in particular the composition of two unit rotors is a unit rotor. -/
theorem appended_normSq_mul (p q : Rot3Df32) :
    normSq (appended p q) = normSq p * normSq q := by
  simp only [normSq, appended]
  ring

end RenderMath
